import Mathlib

/-!
Verification of the FTL Python SDK's tool-registry and dispatch layer
(`src/sdk/python/src/ftl_sdk/ftl.py` and `src/sdk/python/src/ftl_sdk/response.py`)
against its natural-language specification.

The embedding models Python runtime values as the inductive `PyVal`
(dictionaries are insertion-ordered association lists, matching CPython's
dict semantics), Python type annotations as `PyType`, and each source
function as a Lean function of the same name.
-/

namespace FtlSdk

/-- A Python runtime value as used by the SDK: strings, integers, booleans,
floats (kept opaque as their display token — no claim computes with floats),
`None`, lists, and insertion-ordered dictionaries with string keys. -/
inductive PyVal where
  | vStr : String → PyVal
  | vInt : Int → PyVal
  | vBool : Bool → PyVal
  | vFloat : String → PyVal
  | vNone : PyVal
  | vList : List PyVal → PyVal
  | vDict : List (String × PyVal) → PyVal

/-- The test `x is None` used by the metadata cleanup comprehensions. -/
def isNoneVal : PyVal → Bool
  | .vNone => true
  | _ => false

/-- Python dictionary lookup `d.get(k)`: the value at the first (unique) matching key. -/
def AList.get {α : Type} (l : List (String × α)) (k : String) : Option α :=
  (l.find? (fun p => p.1 = k)).map (fun p => p.2)

/-- Python key-membership test `k in d`. -/
def AList.containsKey {α : Type} (l : List (String × α)) (k : String) : Bool :=
  l.any (fun p => p.1 = k)

/-- CPython dict assignment `d[k] = v`: replaces the value in place when the key
exists (keeping its position), otherwise appends the new pair at the end. -/
def AList.insert {α : Type} (l : List (String × α)) (k : String) (v : α) : List (String × α) :=
  if AList.containsKey l k then
    l.map (fun p => if p.1 = k then (k, v) else p)
  else
    l ++ [(k, v)]

/-- The keys of a dictionary, in insertion order. -/
def AList.keys {α : Type} (l : List (String × α)) : List String :=
  l.map (fun p => p.1)

/-- Python truthiness (`bool(x)`) for the modelled values; opaque float tokens
are treated as truthy (no claim exercises a zero float). -/
def pyTruthy : PyVal → Bool
  | .vNone => false
  | .vBool b => b
  | .vInt n => n ≠ 0
  | .vStr s => ¬ s.isEmpty
  | .vFloat _ => true
  | .vList l => ¬ l.isEmpty
  | .vDict d => ¬ d.isEmpty

/-- Python `type(x).__name__` for the modelled values. -/
def typeName : PyVal → String
  | .vStr _ => "str"
  | .vInt _ => "int"
  | .vBool _ => "bool"
  | .vFloat _ => "float"
  | .vNone => "NoneType"
  | .vList _ => "list"
  | .vDict _ => "dict"

/-- `isinstance(x, str)`. -/
def isInstStr : PyVal → Bool
  | .vStr _ => true
  | _ => false

/-- `isinstance(x, bool)`. -/
def isInstBool : PyVal → Bool
  | .vBool _ => true
  | _ => false

/-- `isinstance(x, int)`: in Python `bool` is a subclass of `int`, so booleans
also satisfy this test. -/
def isInstInt : PyVal → Bool
  | .vInt _ => true
  | .vBool _ => true
  | _ => false

/-- `isinstance(x, (int, float))`; booleans qualify through the `int` branch. -/
def isInstNumber : PyVal → Bool
  | .vInt _ => true
  | .vBool _ => true
  | .vFloat _ => true
  | _ => false

/-- `isinstance(x, dict)`. -/
def isInstDict : PyVal → Bool
  | .vDict _ => true
  | _ => false

/-- `isinstance(x, list)`. -/
def isInstList : PyVal → Bool
  | .vList _ => true
  | _ => false

/-- Python `str(x)` for the values the SDK stringifies: `str(True) = "True"`,
`str(5) = "5"`, `str(None) = "None"`; containers use a simple display form
(no claim inspects a container's string form). -/
def pyStr : PyVal → String
  | .vStr s => s
  | .vInt n => toString n
  | .vBool b => if b then "True" else "False"
  | .vFloat tok => tok
  | .vNone => "None"
  | .vList _ => "<list>"
  | .vDict _ => "<dict>"

mutual

/-- Models `json.dumps`: a JSON serialization of the value (whitespace
conventions are irrelevant to every claim, which compare pre-serialization
values or plain strings). -/
def pyJsonDumps : PyVal → String
  | .vStr s => "\"" ++ s ++ "\""
  | .vInt n => toString n
  | .vBool b => if b then "true" else "false"
  | .vFloat tok => tok
  | .vNone => "null"
  | .vList l => "[" ++ String.intercalate ", " (pyJsonDumpsList l) ++ "]"
  | .vDict d => "\x7b" ++ String.intercalate ", " (pyJsonDumpsPairs d) ++ "\x7d"

/-- Serializes the elements of a JSON array, in order. -/
def pyJsonDumpsList : List PyVal → List String
  | [] => []
  | v :: rest => pyJsonDumps v :: pyJsonDumpsList rest

/-- Serializes the key/value pairs of a JSON object, in order. -/
def pyJsonDumpsPairs : List (String × PyVal) → List String
  | [] => []
  | (k, v) :: rest => ("\"" ++ k ++ "\": " ++ pyJsonDumps v) :: pyJsonDumpsPairs rest

end

namespace ToolResponse

/-- `ToolResponse.text` (response.py): a simple text response. -/
def text (t : String) : PyVal :=
  .vDict [("content", .vList [.vDict [("type", .vStr "text"), ("text", .vStr t)]])]

/-- `ToolResponse.error` (response.py): an error response with `isError: true`. -/
def error (e : String) : PyVal :=
  .vDict [("content", .vList [.vDict [("type", .vStr "text"), ("text", .vStr e)]]),
          ("isError", .vBool true)]

/-- `ToolResponse.with_structured` (response.py): text plus structured content. -/
def with_structured (t : String) (structured : PyVal) : PyVal :=
  .vDict [("content", .vList [.vDict [("type", .vStr "text"), ("text", .vStr t)]]),
          ("structuredContent", structured)]

end ToolResponse

/-- A Python type annotation as seen by `FTL._python_type_to_json_schema`:
the primitive classes `str`/`int`/`float`/`bool`, bare `list` and `dict`,
`type(None)`, `Any`, parametrized `List[T]` and `Dict[K, V]`, a `Union`
with its (already flattened) argument tuple, and any other class. -/
inductive PyType where
  | tStr : PyType
  | tInt : PyType
  | tFloat : PyType
  | tBool : PyType
  | tList : PyType
  | tDict : PyType
  | tNone : PyType
  | tAny : PyType
  | tListOf : PyType → PyType
  | tDictOf : PyType → PyType → PyType
  | tUnion : List PyType → PyType
  | tOther : String → PyType

/-- The identity test `t is type(None)` on a `Union` argument. -/
def isNoneType : PyType → Bool
  | .tNone => true
  | _ => false

/-- The `type_map` dictionary of `_python_type_to_json_schema`, as a partial
map from type to schema fragment (`None` models a key miss). -/
def type_map : PyType → Option PyVal
  | .tStr => some (.vDict [("type", .vStr "string")])
  | .tInt => some (.vDict [("type", .vStr "integer")])
  | .tFloat => some (.vDict [("type", .vStr "number")])
  | .tBool => some (.vDict [("type", .vStr "boolean")])
  | .tList => some (.vDict [("type", .vStr "array")])
  | .tDict => some (.vDict [("type", .vStr "object")])
  | .tNone => some (.vDict [("type", .vStr "null")])
  | _ => none

/-- `type_map.get(python_type, {"type": "object"})`: the fall-through of
`_python_type_to_json_schema`. -/
def typeMapDefault (t : PyType) : PyVal :=
  match type_map t with
  | some s => s
  | none => .vDict [("type", .vStr "object")]

/-- `FTL._python_type_to_json_schema` (ftl.py): converts a Python type hint to
a JSON Schema fragment. A `Union` containing `None` with exactly one non-`None`
alternative recurses on it and, when the fragment has a `type` key, replaces
that entry with the two-element list `[type, "null"]`; `List[T]` produces
`{type: "array", items: ...}`; parametrized `dict` produces `{type: "object"}`;
everything else goes through `type_map` with default `{type: "object"}`. -/
def python_type_to_json_schema : PyType → PyVal
  | .tUnion args =>
      if args.any isNoneType then
        match h : args.filter (fun a => ! isNoneType a) with
        | [u] =>
            (match python_type_to_json_schema u with
             | .vDict d =>
                 match AList.get d "type" with
                 | some ty => .vDict (AList.insert d "type" (.vList [ty, .vStr "null"]))
                 | none => .vDict d
             | v => v)
        | _ => typeMapDefault (.tUnion args)
      else typeMapDefault (.tUnion args)
  | .tListOf u => .vDict [("type", .vStr "array"), ("items", python_type_to_json_schema u)]
  | .tDictOf _ _ => .vDict [("type", .vStr "object")]
  | t => typeMapDefault t
termination_by t => sizeOf t
decreasing_by
  · have hu : u ∈ args := List.mem_of_mem_filter (h ▸ List.mem_singleton_self u)
    have := List.sizeOf_lt_of_mem hu
    simp only [PyType.tUnion.sizeOf_spec]
    omega
  · simp only [PyType.tListOf.sizeOf_spec]
    omega

/-- One declared parameter of a registered function, as the signature
inspector sees it: its name, its resolved type hint (absent when
unannotated), and whether it carries a default value. -/
structure Param where
  name : String
  hint : Option PyType
  hasDefault : Bool

/-- The loop body of `FTL._generate_input_schema`: skip a parameter named
`self`; otherwise store its mapped fragment under its name and, when it has
no default, append it to the `required` list. -/
def inputSchemaStep (acc : List (String × PyVal) × List String) (p : Param) :
    List (String × PyVal) × List String :=
  if p.name = "self" then acc
  else
    (AList.insert acc.1 p.name (python_type_to_json_schema (p.hint.getD .tAny)),
     if p.hasDefault then acc.2 else acc.2 ++ [p.name])

/-- `FTL._generate_input_schema` (ftl.py): builds the input JSON Schema from
the signature. Parameters named `self` are skipped; each remaining parameter's
hint (default `Any`) is mapped to a fragment and stored under its name; a
parameter without a default is appended to `required`, which is added to the
schema only when non-empty. -/
def generate_input_schema (params : List Param) : PyVal :=
  let built := params.foldl inputSchemaStep ([], [])
  let base := [("type", PyVal.vStr "object"), ("properties", PyVal.vDict built.1)]
  .vDict (if built.2.isEmpty then base
          else base ++ [("required", PyVal.vList (built.2.map PyVal.vStr))])

/-- The basic top-level type validation at the end of
`FTL._validate_output_against_schema`: compares the output's runtime type
against the schema's `type` string and raises `ValueError` on mismatch. -/
def basicTypeValidate (output : PyVal) (schema_type : Option PyVal) : Except String PyVal :=
  match schema_type with
  | some (.vStr t) =>
      if t = "string" ∧ ¬ isInstStr output then
        .error ("Expected string, got " ++ typeName output)
      else if t = "integer" ∧ ¬ isInstInt output then
        .error ("Expected integer, got " ++ typeName output)
      else if t = "number" ∧ ¬ isInstNumber output then
        .error ("Expected number, got " ++ typeName output)
      else if t = "boolean" ∧ ¬ isInstBool output then
        .error ("Expected boolean, got " ++ typeName output)
      else if t = "object" ∧ ¬ isInstDict output then
        .error ("Expected object/dict, got " ++ typeName output)
      else if t = "array" ∧ ¬ isInstList output then
        .error ("Expected array/list, got " ++ typeName output)
      else .ok output
  | _ => .ok output

/-- The dictionary a schema value holds (schemas are always dicts in the SDK). -/
def asDict : PyVal → List (String × PyVal)
  | .vDict d => d
  | _ => []

/-- `FTL._validate_output_against_schema` (ftl.py). A falsy schema (`None` or
the empty dict) passes the output through. When the schema carries a truthy
`x-ftl-wrapped` marker and `type == "object"`, the inner
`properties.result.type` primitive is checked with `isinstance` (so a Python
`bool` passes the `integer` check, `bool` being a subclass of `int`), and a
non-`{result: ...}` output is wrapped as `{result: output}`; otherwise — and
for an output that is already a `result` mapping — the top-level type check
runs. Failures model the raised `ValueError` with its message. -/
def validate_output_against_schema (output : PyVal)
    (schema : Option (List (String × PyVal))) : Except String PyVal :=
  match schema with
  | none => .ok output
  | some s =>
    if s.isEmpty then .ok output
    else
      let schema_type := AList.get s "type"
      let wrappedFlag := pyTruthy ((AList.get s "x-ftl-wrapped").getD .vNone)
      let schemaTypeIsObject : Bool :=
        match schema_type with
        | some (.vStr t) => t = "object"
        | _ => false
      if wrappedFlag ∧ schemaTypeIsObject then
        let props := asDict ((AList.get s "properties").getD (.vDict []))
        let expected := asDict ((AList.get props "result").getD (.vDict []))
        let expected_type := AList.get expected "type"
        let primCheck : Except String Unit :=
          match expected_type with
          | some (.vStr t) =>
              if t = "string" ∧ ¬ isInstStr output then
                .error ("Expected string, got " ++ typeName output)
              else if t = "integer" ∧ ¬ isInstInt output then
                .error ("Expected integer, got " ++ typeName output)
              else if t = "number" ∧ ¬ isInstNumber output then
                .error ("Expected number, got " ++ typeName output)
              else if t = "boolean" ∧ ¬ isInstBool output then
                .error ("Expected boolean, got " ++ typeName output)
              else .ok ()
          | _ => .ok ()
        match primCheck with
        | .error e => .error e
        | .ok _ =>
            match output with
            | .vDict d =>
                if AList.containsKey d "result" then basicTypeValidate output schema_type
                else .ok (.vDict [("result", output)])
            | _ => .ok (.vDict [("result", output)])
      else basicTypeValidate output schema_type

/-- `FTL._convert_result_to_toolresult` (ftl.py): converts any return value to
the MCP envelope, in the source's branch order — envelope pass-through, wrapped
primitive, string, dict/list, int/float/bool, `None`. -/
def convert_result_to_toolresult (result : PyVal) : PyVal :=
  match result with
  | .vDict d =>
      if AList.containsKey d "content" then .vDict d
      else if AList.containsKey d "result" ∧ d.length = 1 then
        match (AList.get d "result").getD .vNone with
        | .vStr s => ToolResponse.with_structured s (.vDict d)
        | w => ToolResponse.with_structured (pyStr w) (.vDict d)
      else ToolResponse.with_structured (pyJsonDumps (.vDict d)) (.vDict d)
  | .vStr s => ToolResponse.text s
  | .vList l => ToolResponse.with_structured (pyJsonDumps (.vList l)) (.vList l)
  | .vInt n => ToolResponse.text (pyStr (.vInt n))
  | .vFloat f => ToolResponse.text (pyStr (.vFloat f))
  | .vBool b => ToolResponse.text (pyStr (.vBool b))
  | .vNone => ToolResponse.text ""

/-- `FTL._create_handler_wrapper` (ftl.py): the wrapper around a registered
function. The underlying call `func(**input_data)` is modelled as a function
from the parsed argument bag to `Except`, where `.error msg` models a raised
exception with message `msg` (Python `str(e)`). Call, validation, and
conversion run inside the `try`; any failure becomes the error envelope
`"Tool execution failed: ..."` — the wrapper itself never raises. -/
def create_handler_wrapper (func : PyVal → Except String PyVal)
    (output_schema : Option (List (String × PyVal))) : PyVal → PyVal :=
  fun input_data =>
    match (func input_data).bind
        (fun result => validate_output_against_schema result output_schema) with
    | .ok validated => convert_result_to_toolresult validated
    | .error e => ToolResponse.error ("Tool execution failed: " ++ e)

/-- Modelled from the spec: `OutputSchemaGenerator.generate_from_type`
(module `ftl_sdk/validation.py`, which is not in the source tree — only
its use in `ftl.py` is). Per the spec (§4.3 and glossary), a
scalar return type is promoted to a **wrapped primitive** schema: a
single-property object schema whose sole property `result` carries the
primitive fragment, marked with the `x-ftl-wrapped` flag that
`_validate_output_against_schema` reads; non-scalar return types yield the
plain fragment of the type-to-schema mapping. -/
def generate_from_type (t : PyType) : List (String × PyVal) :=
  match t with
  | .tStr => wrappedPrimitiveSchema "string"
  | .tInt => wrappedPrimitiveSchema "integer"
  | .tFloat => wrappedPrimitiveSchema "number"
  | .tBool => wrappedPrimitiveSchema "boolean"
  | other => asDict (python_type_to_json_schema other)
where
  /-- The wrapped-primitive object schema for a scalar of JSON type `p`. -/
  wrappedPrimitiveSchema (p : String) : List (String × PyVal) :=
    [("type", .vStr "object"),
     ("properties", .vDict [("result", .vDict [("type", .vStr p)])]),
     ("x-ftl-wrapped", .vBool true)]

/-- A registry entry (the `tool_definition` dict built by `FTL.tool`):
description, input schema, optional annotations, optional output schema, and
the bound wrapped handler. -/
structure Tool where
  description : String
  inputSchema : PyVal
  annotations : Option PyVal
  outputSchema : Option (List (String × PyVal))
  handler : PyVal → PyVal

/-- `FTL.tool` registration (ftl.py): builds the input schema from the
signature, the output schema from the return annotation (absent when the
function is unannotated), wraps the function, and assigns the definition into
the registry dict under the tool's name (overwriting in place on re-use). -/
def registerTool (reg : List (String × Tool)) (toolName : String) (desc : String)
    (params : List Param) (ret : Option PyType) (ann : Option PyVal)
    (func : PyVal → Except String PyVal) : List (String × Tool) :=
  let output_schema := ret.map generate_from_type
  AList.insert reg toolName
    { description := desc
      inputSchema := generate_input_schema params
      annotations := ann
      outputSchema := output_schema
      handler := create_handler_wrapper func output_schema }

/-- The request body as the dispatcher sees it: absent (falsy, treated as
`"{}"`), bytes that fail UTF-8 decoding or JSON parsing (with the exception's
message), or bytes whose JSON parse yields a value. -/
inductive ReqBody where
  | empty : ReqBody
  | malformed : String → ReqBody
  | parsed : PyVal → ReqBody

/-- An inbound Spin HTTP request: method, URI, body. -/
structure Request where
  method : String
  uri : String
  body : ReqBody

/-- An outbound Spin HTTP response; the body is kept as the value passed to
`json.dumps` (pre-serialization). -/
structure Response where
  status : Nat
  headers : List (String × String)
  body : PyVal

/-- Python `path.lstrip('/')`: removes every leading slash. -/
def lstripSlash (s : String) : String :=
  String.mk (s.toList.dropWhile (fun c => c = '/'))

/-- The metadata entry the `GET /` branch builds for one registry item:
name, description, inputSchema, annotations, then outputSchema when present,
with `None`-valued keys removed by the cleanup comprehension. -/
def metadataEntry (toolName : String) (t : Tool) : PyVal :=
  let base := [("name", PyVal.vStr toolName),
               ("description", PyVal.vStr t.description),
               ("inputSchema", t.inputSchema),
               ("annotations", t.annotations.getD .vNone)]
    ++ (match t.outputSchema with
        | some o => [("outputSchema", PyVal.vDict o)]
        | none => [])
  PyVal.vDict (base.filter (fun kv => ! isNoneVal kv.2))

/-- `IncomingHandler.handle_request` (ftl.py): `GET /` (or the empty path)
returns the cleaned metadata list with status 200; `POST /{name}` strips the
leading slashes, answers 404 for an unknown name, 400 with the
`"Tool execution failed: ..."` envelope when the body fails to parse, and
otherwise 200 with the wrapped handler's result (the wrapper itself catches
execution failures); every other method gets 405 with the `allow` header and
the fixed JSON-RPC error body. -/
def handle_request (tools : List (String × Tool)) (request : Request) : Response :=
  if request.method = "GET" ∧ (request.uri = "/" ∨ request.uri = "") then
    { status := 200
      headers := [("content-type", "application/json")]
      body := .vList (tools.map (fun p => metadataEntry p.1 p.2)) }
  else if request.method = "POST" then
    let tool_name := lstripSlash request.uri
    match AList.get tools tool_name with
    | none =>
        { status := 404
          headers := [("content-type", "application/json")]
          body := ToolResponse.error ("Tool '" ++ tool_name ++ "' not found") }
    | some tool =>
        match request.body with
        | .malformed msg =>
            { status := 400
              headers := [("content-type", "application/json")]
              body := ToolResponse.error ("Tool execution failed: " ++ msg) }
        | .empty =>
            { status := 200
              headers := [("content-type", "application/json")]
              body := tool.handler (.vDict []) }
        | .parsed v =>
            { status := 200
              headers := [("content-type", "application/json")]
              body := tool.handler v }
  else
    { status := 405
      headers := [("content-type", "application/json"), ("allow", "GET, POST")]
      body := .vDict [("error", .vDict [("code", .vInt (-32601)),
                                        ("message", .vStr "Method not allowed")])] }

/-- `_camel_to_snake` (response.py): for each character with its index, an
underscore is appended before an uppercase letter at a non-zero index, then
the lowercased character is appended. -/
def camel_to_snake (name : String) : String :=
  String.mk (name.toList.enum.foldl
    (fun acc (p : Nat × Char) =>
      acc ++ (if p.2.isUpper ∧ p.1 > 0 then ['_'] else []) ++ [p.2.toLower]) [])

/-- The tool-name derivation in `create_tools` (response.py):
`tool.get("name", _camel_to_snake(key))` — an explicit `name` field wins,
otherwise the dictionary key converted from camelCase. -/
def effectiveToolName (tool : List (String × PyVal)) (key : String) : PyVal :=
  (AList.get tool "name").getD (.vStr (camel_to_snake key))

/-- A sequence of registrations applied to the initially empty registry. -/
def buildRegistry (regs : List (String × Tool)) : List (String × Tool) :=
  regs.foldl (fun acc p => AList.insert acc p.1 p.2) []

/-- The first occurrence of each name, in order of first registration. -/
def firstOccurrences (names : List String) : List String :=
  names.foldl (fun acc n => if n ∈ acc then acc else acc ++ [n]) []

/-- The `name` fields of a metadata-listing response body, in order. -/
def listedNames (resp : Response) : List PyVal :=
  match resp.body with
  | .vList entries => entries.map (fun e => (AList.get (asDict e) "name").getD .vNone)
  | _ => []

/-- The text of the first content block of an envelope. -/
def envelopeText (envelope : PyVal) : Option String :=
  match AList.get (asDict envelope) "content" with
  | some (.vList (first :: _)) =>
      match AList.get (asDict first) "text" with
      | some (.vStr t) => some t
      | _ => none
  | _ => none

/-- `nm` is listed in the `required` field of an input schema. -/
def inRequired (schema : PyVal) (nm : String) : Prop :=
  match AList.get (asDict schema) "required" with
  | some (.vList l) => PyVal.vStr nm ∈ l
  | _ => False

/-- The underscore-insertion pass of the spec's camelCase rule on every
character after the first: an uppercase letter gets an underscore before it. -/
def insertUnderscoresTail : List Char → List Char
  | [] => []
  | c :: rest => (if c.isUpper then ['_', c] else [c]) ++ insertUnderscoresTail rest

/-- The spec's statement of the camelCase→snake_case rule: insert `_` before
every uppercase letter that is not the first character, then lowercase the
whole string. -/
def snakeSpec : List Char → List Char
  | [] => []
  | c :: rest => (c :: insertUnderscoresTail rest).map Char.toLower

/-- The wrapped-primitive output schema with inner type `integer`: a
single-property object schema whose sole property is `result`, carrying the
`x-ftl-wrapped` marker. -/
def wrappedIntSchema : List (String × PyVal) :=
  [("type", .vStr "object"),
   ("properties", .vDict [("result", .vDict [("type", .vStr "integer")])]),
   ("x-ftl-wrapped", .vBool true)]

/-- The wrapped-primitive output schema with inner type `boolean`. -/
def wrappedBoolSchema : List (String × PyVal) :=
  [("type", .vStr "object"),
   ("properties", .vDict [("result", .vDict [("type", .vStr "boolean")])]),
   ("x-ftl-wrapped", .vBool true)]

/-- The body of `def fn(a: int, b: int) -> int: return a + b`, as called with
the parsed argument bag (`fn(**input_data)`): missing or non-integer
arguments raise. -/
def addFunc : PyVal → Except String PyVal
  | .vDict d =>
      match AList.get d "a", AList.get d "b" with
      | some (.vInt a), some (.vInt b) => .ok (.vInt (a + b))
      | _, _ => .error "TypeError"
  | _ => .error "TypeError"

/-- The registry after registering `fn(a: int, b: int) -> int` under the name
`add`. -/
def addReg : List (String × Tool) :=
  registerTool [] "add" "Add two numbers"
    [⟨"a", some .tInt, false⟩, ⟨"b", some .tInt, false⟩] (some .tInt) none addFunc

/-- A registered function whose body always raises with message `boom`. -/
def failFunc : PyVal → Except String PyVal := fun _ => .error "boom"

/-- The registry after registering the always-raising function under name `t`. -/
def failReg : List (String × Tool) := registerTool [] "t" "" [] none none failFunc

/-- A signature with a non-first parameter named `self` and no defaults:
`def fn(a: int, self: int)`. -/
def selfParams : List Param :=
  [⟨"a", some .tInt, false⟩, ⟨"self", some .tInt, false⟩]

/-- A minimal tool descriptor whose handler answers with the fixed text `t`. -/
def constTool (desc : String) (t : String) : Tool :=
  { description := desc
    inputSchema := .vDict [("type", .vStr "object")]
    annotations := none
    outputSchema := none
    handler := fun _ => ToolResponse.text t }

/-- A two-tool registry used to exercise re-registration. -/
def twoToolReg : List (String × Tool) :=
  [("alpha", constTool "first" "old alpha"), ("beta", constTool "second" "beta")]

/-- Unfolding lookup over a cons cell. -/
lemma get_cons {α : Type} (p : String × α) (rest : List (String × α)) (k : String) :
    AList.get (p :: rest) k = if p.1 = k then some p.2 else AList.get rest k := by
  by_cases hp : p.1 = k <;> simp [AList.get, List.find?, hp]

/-- Unfolding key membership over a cons cell. -/
lemma containsKey_cons {α : Type} (p : String × α) (rest : List (String × α)) (k : String) :
    AList.containsKey (p :: rest) k = (decide (p.1 = k) || AList.containsKey rest k) := by
  simp [AList.containsKey]

/-- Key membership agrees with membership in the key list. -/
lemma containsKey_iff {α : Type} (l : List (String × α)) (k : String) :
    AList.containsKey l k = true ↔ k ∈ AList.keys l := by
  simp [AList.containsKey, AList.keys, List.any_eq_true]

/-- The in-place assignment pass leaves the key sequence unchanged. -/
lemma keys_map_assign {α : Type} (l : List (String × α)) (k : String) (v : α) :
    AList.keys (l.map fun p => if p.1 = k then (k, v) else p) = AList.keys l := by
  induction l with
  | nil => rfl
  | cons p rest ih =>
      by_cases hp : p.1 = k <;> simp [AList.keys, hp, ih] <;>
        simpa [AList.keys] using ih

/-- Dict assignment preserves the key sequence when the key exists and appends
it otherwise. -/
lemma keys_insert {α : Type} (l : List (String × α)) (k : String) (v : α) :
    AList.keys (AList.insert l k v)
      = if k ∈ AList.keys l then AList.keys l else AList.keys l ++ [k] := by
  unfold AList.insert
  by_cases h : k ∈ AList.keys l
  · rw [if_pos ((containsKey_iff l k).mpr h), if_pos h, keys_map_assign]
  · rw [if_neg (fun hc => h ((containsKey_iff l k).mp hc)), if_neg h]
    simp [AList.keys]

/-- Looking up the assigned key returns the new value. -/
lemma get_insert_self {α : Type} (l : List (String × α)) (k : String) (v : α) :
    AList.get (AList.insert l k v) k = some v := by
  unfold AList.insert
  by_cases h : AList.containsKey l k = true
  · rw [if_pos h]
    induction l with
    | nil => simp [AList.containsKey] at h
    | cons p rest ih =>
        by_cases hp : p.1 = k
        · simp [List.map_cons, hp, get_cons]
        · simp only [List.map_cons, if_neg hp]
          rw [get_cons, if_neg hp]
          exact ih (by simpa [containsKey_cons, hp] using h)
  · rw [if_neg h]
    induction l with
    | nil => simp [AList.get, List.find?]
    | cons p rest ih =>
        have hp : ¬ p.1 = k := by
          intro hk
          exact h (by simp [containsKey_cons, hk])
        rw [List.cons_append, get_cons, if_neg hp]
        exact ih (by simpa [containsKey_cons, hp] using h)

/-- Looking up a different key is unchanged by the in-place assignment pass. -/
lemma get_map_assign_ne {α : Type} (l : List (String × α)) (k k2 : String) (v : α)
    (h : k2 ≠ k) :
    AList.get (l.map fun p => if p.1 = k then (k, v) else p) k2 = AList.get l k2 := by
  have hk2 : ¬ (k = k2) := fun he => h he.symm
  induction l with
  | nil => rfl
  | cons p rest ih =>
      by_cases hp : p.1 = k
      · have hph : ¬ p.1 = k2 := fun he => h (by rw [← he, hp])
        simp [List.map_cons, hp, get_cons, hph, hk2, ih]
      · by_cases hp2 : p.1 = k2
        · simp [List.map_cons, hp, get_cons, hp2, h]
        · simp [List.map_cons, hp, get_cons, hp2, ih]

/-- Looking up a different key is unchanged by an assignment. -/
lemma get_insert_of_ne {α : Type} (l : List (String × α)) (k k2 : String) (v : α)
    (h : k2 ≠ k) : AList.get (AList.insert l k v) k2 = AList.get l k2 := by
  unfold AList.insert
  by_cases hc : AList.containsKey l k = true
  · rw [if_pos hc, get_map_assign_ne l k k2 v h]
  · rw [if_neg hc]
    have hk2 : ¬ (k = k2) := fun he => h he.symm
    induction l with
    | nil => simp [AList.get, List.find?, hk2]
    | cons p rest ih =>
        rw [List.cons_append, get_cons, get_cons]
        by_cases hp2 : p.1 = k2
        · rw [if_pos hp2, if_pos hp2]
        · rw [if_neg hp2, if_neg hp2]
          exact ih (fun hr => hc (by rw [containsKey_cons, hr, Bool.or_true]))

/-- The builder's output always carries a `content` key: every branch of
`_convert_result_to_toolresult` returns an envelope. -/
lemma convert_result_isEnvelope (x : PyVal) :
    ∃ d, convert_result_to_toolresult x = .vDict d
      ∧ AList.containsKey d "content" = true := by
  cases x with
  | vDict d =>
      by_cases h : AList.containsKey d "content" = true
      · exact ⟨d, by simp only [convert_result_to_toolresult, if_pos h], h⟩
      · by_cases h2 : AList.containsKey d "result" = true ∧ d.length = 1
        · have hconv : convert_result_to_toolresult (.vDict d)
              = ToolResponse.with_structured
                  (match (AList.get d "result").getD .vNone with
                   | .vStr s => s
                   | w => pyStr w) (.vDict d) := by
            simp only [convert_result_to_toolresult, if_neg h, if_pos h2]
            cases (AList.get d "result").getD .vNone <;> rfl
          rw [hconv]
          exact ⟨_, rfl, rfl⟩
        · rw [show convert_result_to_toolresult (.vDict d)
              = ToolResponse.with_structured (pyJsonDumps (.vDict d)) (.vDict d) from by
            simp only [convert_result_to_toolresult, if_neg h, if_neg h2]]
          exact ⟨_, rfl, rfl⟩
  | vStr s => exact ⟨_, rfl, rfl⟩
  | vInt n => exact ⟨_, rfl, rfl⟩
  | vBool b => exact ⟨_, rfl, rfl⟩
  | vFloat f => exact ⟨_, rfl, rfl⟩
  | vNone => exact ⟨_, rfl, rfl⟩
  | vList l => exact ⟨_, rfl, rfl⟩

/-- C1 counterexample: with a registered tool whose wrapped function raises
(`boom`) and a request body that parses as JSON (`{}`), the dispatcher
responds with status 200 — not 400 as the claim states — because the handler
wrapper catches the exception and returns the error envelope as an ordinary
result, which the dispatcher serializes on the success path. -/
theorem C1_counterexample :
    (handle_request failReg ⟨"POST", "/t", .parsed (.vDict [])⟩).status = 200
    ∧ (handle_request failReg ⟨"POST", "/t", .parsed (.vDict [])⟩).status ≠ 400
    ∧ (handle_request failReg ⟨"POST", "/t", .parsed (.vDict [])⟩).body
        = ToolResponse.error "Tool execution failed: boom" :=
  ⟨rfl, by decide, rfl⟩

/-- C1 (amended): when the wrapped function raises during execution or output
validation fails, the dispatcher responds with status **200** and an error
envelope (`isError: true`) whose text begins with `"Tool execution failed: "`
followed by the failure's message; no exception propagates past the
dispatcher (the handler wrapper returns the envelope as an ordinary value).
Status 400 arises only when the request body itself fails to parse. -/
theorem C1_amended (tools : List (String × Tool)) (req : Request) (t : Tool)
    (func : PyVal → Except String PyVal) (v : PyVal) (msg : String)
    (hm : req.method = "POST") (hb : req.body = .parsed v)
    (hget : AList.get tools (lstripSlash req.uri) = some t)
    (hh : t.handler = create_handler_wrapper func t.outputSchema)
    (hfail : (func v).bind
        (fun r => validate_output_against_schema r t.outputSchema) = .error msg) :
    handle_request tools req =
      { status := 200
        headers := [("content-type", "application/json")]
        body := ToolResponse.error ("Tool execution failed: " ++ msg) } := by
  unfold handle_request
  rw [hm]
  rw [if_neg (by simp), if_pos rfl]
  simp only [hget, hb, hh, create_handler_wrapper, hfail]

/-- C1 witness: the amended theorem applied to the concrete always-raising
registration and the concrete parsed request. -/
theorem C1_witness :
    handle_request failReg ⟨"POST", "/t", .parsed (.vDict [])⟩ =
      { status := 200
        headers := [("content-type", "application/json")]
        body := ToolResponse.error ("Tool execution failed: " ++ "boom") } :=
  C1_amended failReg ⟨"POST", "/t", .parsed (.vDict [])⟩
    { description := ""
      inputSchema := generate_input_schema []
      annotations := none
      outputSchema := none
      handler := create_handler_wrapper failFunc none }
    failFunc (.vDict []) "boom" rfl rfl rfl rfl rfl

/-- C2 counterexample: against the wrapped-primitive output schema with inner
type `integer`, the boolean raw output `True` is **not** rejected: the check
uses `isinstance(output, int)` and Python's `bool` is a subclass of `int`, so
validation accepts it and wraps it as `{result: True}`. -/
theorem C2_counterexample :
    validate_output_against_schema (.vBool true) (some wrappedIntSchema)
      = .ok (.vDict [("result", .vBool true)]) := rfl

/-- C2 (amended): for the wrapped-primitive schema with inner type `integer`,
every boolean raw output is accepted (and wrapped) because the `isinstance`
check treats `bool` as an `int`; in the other direction, for inner type
`boolean` every integer raw output is rejected with a validation error, since
an `int` is not a `bool`. -/
theorem C2_amended :
    (∀ b : Bool, validate_output_against_schema (.vBool b) (some wrappedIntSchema)
        = .ok (.vDict [("result", .vBool b)]))
    ∧ (∀ n : Int, validate_output_against_schema (.vInt n) (some wrappedBoolSchema)
        = .error "Expected boolean, got int") :=
  ⟨fun b => by cases b <;> rfl, fun n => rfl⟩

/-- C3: registering `fn(a: int, b: int) -> int` and invoking it via
`POST /add` with body `{"a": 2, "b": 3}` yields status 200 and an envelope
whose text content equals `"5"` — the integer result is stringified, not
JSON-wrapped (the structured content carries the wrapped `{result: 5}`). -/
theorem C3_roundtrip :
    (handle_request addReg
        ⟨"POST", "/add", .parsed (.vDict [("a", .vInt 2), ("b", .vInt 3)])⟩).status = 200
    ∧ envelopeText (handle_request addReg
        ⟨"POST", "/add", .parsed (.vDict [("a", .vInt 2), ("b", .vInt 3)])⟩).body
        = some "5"
    ∧ (handle_request addReg
        ⟨"POST", "/add", .parsed (.vDict [("a", .vInt 2), ("b", .vInt 3)])⟩).body
        = ToolResponse.with_structured "5" (.vDict [("result", .vInt 5)]) :=
  ⟨rfl, rfl, rfl⟩

/-- C4: the envelope builder is idempotent — a value that is already an
envelope (a dict containing a `content` key) passes through unchanged, and
consequently converting twice equals converting once, for every value. -/
theorem C4_envelope_idempotent :
    (∀ d : List (String × PyVal), AList.containsKey d "content" = true →
        convert_result_to_toolresult (.vDict d) = .vDict d)
    ∧ (∀ x : PyVal, convert_result_to_toolresult (convert_result_to_toolresult x)
        = convert_result_to_toolresult x) := by
  constructor
  · intro d h
    simp only [convert_result_to_toolresult, if_pos h]
  · intro x
    obtain ⟨d, hd, hc⟩ := convert_result_isEnvelope x
    rw [hd]
    simp only [convert_result_to_toolresult, if_pos hc]

/-- C4 witness: the pass-through conjunct applied to a concrete envelope. -/
theorem C4_witness :
    convert_result_to_toolresult (.vDict [("content", .vList [])])
      = .vDict [("content", .vList [])] :=
  C4_envelope_idempotent.1 [("content", .vList [])] rfl

/-- C6 counterexample: for `def fn(a: int, self: int)` — whose second, non-first
parameter is named `self` and lacks a default — the generated `required` list
is `["a"]` only: the source skips **every** parameter named `self`, not just an
implicit first one, so `self` is missing from `required` although the claim
requires it there. -/
theorem C6_counterexample :
    AList.get (asDict (generate_input_schema selfParams)) "required"
      = some (.vList [.vStr "a"])
    ∧ ¬ inRequired (generate_input_schema selfParams) "self" := by
  refine ⟨rfl, fun hmem => ?_⟩
  have h2 : PyVal.vStr "self" ∈ [PyVal.vStr "a"] := hmem
  simp at h2

/-- C9: every request that is neither a metadata `GET` on the root (or empty)
path nor a `POST` receives status 405, the header `allow: GET, POST`, and the
JSON-RPC error body `{error: {code: -32601, message: "Method not allowed"}}`. -/
theorem C9_method_not_allowed (tools : List (String × Tool)) (req : Request)
    (h1 : ¬ (req.method = "GET" ∧ (req.uri = "/" ∨ req.uri = "")))
    (h2 : ¬ req.method = "POST") :
    handle_request tools req =
      { status := 405
        headers := [("content-type", "application/json"), ("allow", "GET, POST")]
        body := .vDict [("error", .vDict [("code", .vInt (-32601)),
                                          ("message", .vStr "Method not allowed")])] } := by
  unfold handle_request
  rw [if_neg h1, if_neg h2]

/-- C9 witness: a `DELETE /` request against the empty registry. -/
theorem C9_witness :
    handle_request [] ⟨"DELETE", "/", .empty⟩ =
      { status := 405
        headers := [("content-type", "application/json"), ("allow", "GET, POST")]
        body := .vDict [("error", .vDict [("code", .vInt (-32601)),
                                          ("message", .vStr "Method not allowed")])] } :=
  C9_method_not_allowed [] ⟨"DELETE", "/", .empty⟩ (by simp) (by simp)

/-- C10: re-registering an existing name overwrites the descriptor in place —
lookups and subsequent `POST` invocations use the new handler — while the key
sequence, and with it the position in the `GET /` metadata listing, is
unchanged (the name is not moved to the end). -/
theorem C10_reregistration (reg : List (String × Tool)) (name : String)
    (t2 : Tool) (v : PyVal)
    (hmem : name ∈ AList.keys reg)
    (hslash : lstripSlash ("/" ++ name) = name) :
    AList.keys (AList.insert reg name t2) = AList.keys reg
    ∧ AList.get (AList.insert reg name t2) name = some t2
    ∧ handle_request (AList.insert reg name t2) ⟨"POST", "/" ++ name, .parsed v⟩
        = { status := 200
            headers := [("content-type", "application/json")]
            body := t2.handler v } := by
  refine ⟨?_, get_insert_self reg name t2, ?_⟩
  · rw [keys_insert, if_pos hmem]
  · unfold handle_request
    rw [if_neg (by simp), if_pos rfl]
    simp only [hslash, get_insert_self]

/-- C10 witness: overwriting the first of two registered tools. -/
theorem C10_witness :
    AList.keys (AList.insert twoToolReg "alpha" (constTool "replacement" "new alpha"))
      = AList.keys twoToolReg
    ∧ AList.get (AList.insert twoToolReg "alpha" (constTool "replacement" "new alpha")) "alpha"
      = some (constTool "replacement" "new alpha")
    ∧ handle_request (AList.insert twoToolReg "alpha" (constTool "replacement" "new alpha"))
        ⟨"POST", "/" ++ "alpha", .parsed (.vDict [])⟩
        = { status := 200
            headers := [("content-type", "application/json")]
            body := (constTool "replacement" "new alpha").handler (.vDict []) } :=
  C10_reregistration twoToolReg "alpha" (constTool "replacement" "new alpha")
    (.vDict []) (by simp [twoToolReg, AList.keys]) (by decide)

/-- The `required` component accumulated by the input-schema fold: the names
of the non-`self` parameters without a default, in declaration order. -/
lemma inputSchema_fold_required (ps : List Param)
    (acc : List (String × PyVal) × List String) :
    (ps.foldl inputSchemaStep acc).2
      = acc.2 ++ (ps.filter
          (fun p => decide (¬ p.name = "self" ∧ p.hasDefault = false))).map
            (fun p => p.name) := by
  induction ps generalizing acc with
  | nil => simp
  | cons p rest ih =>
      rw [List.foldl_cons, ih]
      by_cases hs : p.name = "self"
      · simp [inputSchemaStep, hs, List.filter_cons]
      · by_cases hd : p.hasDefault = true
        · simp [inputSchemaStep, hs, hd, List.filter_cons]
        · simp only [Bool.not_eq_true] at hd
          simp [inputSchemaStep, hs, hd, List.filter_cons, List.append_assoc]

/-- C6 (amended): a parameter name appears in `inputSchema.required` exactly
when some parameter of that name is **not named `self`** (at any position, not
only an implicit first one) and lacks a default; and when every parameter has
a default, the `required` key is absent from the schema entirely. -/
theorem C6_required_iff :
    (∀ (ps : List Param) (nm : String),
        inRequired (generate_input_schema ps) nm ↔
          ∃ p ∈ ps, p.name = nm ∧ ¬ nm = "self" ∧ p.hasDefault = false)
    ∧ (∀ ps : List Param, (∀ p ∈ ps, p.hasDefault = true) →
        AList.get (asDict (generate_input_schema ps)) "required" = none) := by
  have hbase : ∀ props : List (String × PyVal),
      AList.get [("type", PyVal.vStr "object"), ("properties", PyVal.vDict props)]
        "required" = none := by
    intro props
    simp [AList.get, List.find?]
  constructor
  · intro ps nm
    simp only [generate_input_schema, inRequired]
    rw [inputSchema_fold_required ps ([], [])]
    simp only [List.nil_append]
    set r := (ps.filter
        (fun p => decide (¬ p.name = "self" ∧ p.hasDefault = false))).map
          (fun p => p.name) with hr
    by_cases hre : r.isEmpty
    · rw [if_pos hre]
      simp only [asDict, hbase]
      rw [List.isEmpty_iff] at hre
      constructor
      · intro hfalse
        exact absurd hfalse (by simp)
      · rintro ⟨p, hp, hnm, hself, hdef⟩
        have : p.name ∈ r := by
          rw [hr]
          exact List.mem_map.mpr ⟨p, List.mem_filter.mpr ⟨hp, by simp [hnm, hself, hdef]⟩, rfl⟩
        rw [hre] at this
        simp at this
    · rw [if_neg hre]
      have hget : AList.get (asDict (PyVal.vDict
          ([("type", PyVal.vStr "object"),
            ("properties", PyVal.vDict (ps.foldl inputSchemaStep ([], [])).1)]
           ++ [("required", PyVal.vList (r.map PyVal.vStr))]))) "required"
          = some (PyVal.vList (r.map PyVal.vStr)) := by
        simp [asDict, AList.get, List.find?]
      rw [hget]
      constructor
      · intro hmem
        obtain ⟨nm2, hnm2, heq⟩ := List.mem_map.mp hmem
        obtain rfl : nm2 = nm := by
          cases heq
          rfl
        obtain ⟨p, hpf, hpn⟩ := List.mem_map.mp hnm2
        have hpred := List.mem_filter.mp hpf
        refine ⟨p, hpred.1, hpn, ?_, ?_⟩
        · have := of_decide_eq_true hpred.2
          rw [← hpn]
          exact this.1
        · exact (of_decide_eq_true hpred.2).2
      · rintro ⟨p, hp, hnm, hself, hdef⟩
        refine List.mem_map.mpr ⟨nm, ?_, rfl⟩
        exact List.mem_map.mpr
          ⟨p, List.mem_filter.mpr ⟨hp, by simp [hnm, hself, hdef]⟩, hnm⟩
  · intro ps hall
    simp only [generate_input_schema]
    rw [inputSchema_fold_required ps ([], [])]
    have hempty : (ps.filter
        (fun p => decide (¬ p.name = "self" ∧ p.hasDefault = false))).map
          (fun p => p.name) = [] := by
      rw [List.map_eq_nil_iff, List.filter_eq_nil_iff]
      intro p hp
      simp [hall p hp]
    simp only [List.nil_append, hempty, List.isEmpty_nil, if_true]
    exact hbase _

/-- C6 witness: the all-defaults conjunct applied to the empty signature. -/
theorem C6_witness :
    AList.get (asDict (generate_input_schema [])) "required" = none :=
  C6_required_iff.2 [] (by simp)

end FtlSdk

namespace FtlSdk

/-- Folding the enumerate loop from any positive index appends exactly the
underscore-inserted, lowercased form of the remaining characters. -/
lemma camel_fold (l : List Char) (i : Nat) (hi : 0 < i) (acc : List Char) :
    (List.enumFrom i l).foldl
        (fun acc (p : Nat × Char) =>
          acc ++ (if p.2.isUpper ∧ p.1 > 0 then ['_'] else []) ++ [p.2.toLower]) acc
      = acc ++ (insertUnderscoresTail l).map Char.toLower := by
  induction l generalizing i acc with
  | nil => simp [List.enumFrom, insertUnderscoresTail]
  | cons c rest ih =>
      simp only [List.enumFrom, List.foldl_cons]
      rw [ih (i + 1) (Nat.succ_pos i)]
      by_cases hc : c.isUpper = true
      · have hu : Char.toLower '_' = '_' := rfl
        simp [insertUnderscoresTail, hc, hi, hu, List.append_assoc]
      · simp [insertUnderscoresTail, hc, hi, List.append_assoc]

/-- C8: the derived tool name agrees with the spec's rule — insert `_` before
every uppercase letter that is not the first character, then lowercase the
whole string (`"reverseText"` becomes `"reverse_text"`) — and in the
declarative registration form an explicit `name` field always takes
precedence over the name derived from the dictionary key. -/
theorem C8_camel_to_snake :
    (∀ s : String, camel_to_snake s = String.mk (snakeSpec s.toList))
    ∧ camel_to_snake "reverseText" = "reverse_text"
    ∧ (∀ (d : List (String × PyVal)) (key : String),
        AList.get d "name" = none →
        effectiveToolName d key = .vStr (camel_to_snake key))
    ∧ (∀ (d : List (String × PyVal)) (key : String) (v : PyVal),
        AList.get d "name" = some v → effectiveToolName d key = v) := by
  refine ⟨?_, rfl, ?_, ?_⟩
  · intro s
    unfold camel_to_snake snakeSpec
    cases hl : s.toList with
    | nil => simp [List.enum]
    | cons c rest =>
        have henum : (c :: rest).enum = (0, c) :: List.enumFrom 1 rest := by
          simp [List.enum, List.enumFrom]
        rw [henum, List.foldl_cons]
        rw [camel_fold rest 1 Nat.one_pos]
        simp [List.map_cons]
  · intro d key h
    simp [effectiveToolName, h]
  · intro d key v h
    simp [effectiveToolName, h]

end FtlSdk

namespace FtlSdk

/-- The key sequence of a fold of dict assignments is the fold of the
keep-first name picker over the assigned names. -/
lemma keys_buildRegistry_aux (regs : List (String × Tool)) (acc : List (String × Tool)) :
    AList.keys (regs.foldl (fun a p => AList.insert a p.1 p.2) acc)
      = (regs.map (fun p => p.1)).foldl
          (fun ks n => if n ∈ ks then ks else ks ++ [n]) (AList.keys acc) := by
  induction regs generalizing acc with
  | nil => simp
  | cons p rest ih =>
      rw [List.map_cons, List.foldl_cons, List.foldl_cons, ih, keys_insert]

/-- The registry's key sequence after a sequence of registrations is the
sequence of first occurrences of the registered names. -/
lemma keys_buildRegistry (regs : List (String × Tool)) :
    AList.keys (buildRegistry regs) = firstOccurrences (regs.map (fun p => p.1)) := by
  unfold buildRegistry firstOccurrences
  simpa [AList.keys] using keys_buildRegistry_aux regs []

/-- The keep-first picker preserves freedom from duplicates. -/
lemma firstOccurrences_fold_nodup (names : List String) (acc : List String)
    (h : acc.Nodup) :
    (names.foldl (fun ks n => if n ∈ ks then ks else ks ++ [n]) acc).Nodup := by
  induction names generalizing acc with
  | nil => exact h
  | cons n rest ih =>
      rw [List.foldl_cons]
      by_cases hn : n ∈ acc
      · rw [if_pos hn]
        exact ih acc h
      · rw [if_neg hn]
        exact ih _ (by simp [List.nodup_append, h, hn])

/-- Every metadata entry keeps its `name` field, with the registry key as
value: the cleanup comprehension removes only `None` values. -/
lemma metadataEntry_name (n : String) (t : Tool) :
    AList.get (asDict (metadataEntry n t)) "name" = some (.vStr n) := by
  simp [metadataEntry, asDict, List.filter_cons, isNoneVal, get_cons]

/-- The names listed by `GET /` are exactly the registry's keys, in order. -/
lemma listedNames_eq (tools : List (String × Tool)) :
    listedNames (handle_request tools ⟨"GET", "/", .empty⟩)
      = (AList.keys tools).map PyVal.vStr := by
  unfold handle_request
  rw [if_pos (by simp)]
  unfold listedNames
  simp [List.map_map, metadataEntry_name, AList.keys, Function.comp]

/-- No metadata entry retains a `None`-valued field. -/
lemma metadataEntry_noNone (n : String) (t : Tool) :
    ∀ kv ∈ asDict (metadataEntry n t), isNoneVal kv.2 = false := by
  intro kv hkv
  unfold metadataEntry asDict at hkv
  have := List.of_mem_filter hkv
  simpa using this

/-- C7: for every sequence of registrations, `GET /` answers 200 and lists
each registered tool's name exactly once, in order of first registration,
with every `None`-valued optional field omitted from its entry; and the
registry maps each name to exactly one descriptor (its key sequence has no
duplicates, matching the listing order). -/
theorem C7_metadata_listing (regs : List (String × Tool)) :
    (handle_request (buildRegistry regs) ⟨"GET", "/", .empty⟩).status = 200
    ∧ listedNames (handle_request (buildRegistry regs) ⟨"GET", "/", .empty⟩)
        = (firstOccurrences (regs.map (fun p => p.1))).map PyVal.vStr
    ∧ (AList.keys (buildRegistry regs)).Nodup
    ∧ AList.keys (buildRegistry regs) = firstOccurrences (regs.map (fun p => p.1))
    ∧ (∀ e ∈ (match (handle_request (buildRegistry regs) ⟨"GET", "/", .empty⟩).body with
              | .vList es => es
              | _ => []),
        ∀ kv ∈ asDict e, isNoneVal kv.2 = false) := by
  refine ⟨?_, ?_, ?_, keys_buildRegistry regs, ?_⟩
  · unfold handle_request
    rw [if_pos (by simp)]
  · rw [listedNames_eq, keys_buildRegistry]
  · rw [keys_buildRegistry]
    unfold firstOccurrences
    exact firstOccurrences_fold_nodup _ [] List.nodup_nil
  · intro e he kv hkv
    revert he
    unfold handle_request
    rw [if_pos (by simp)]
    intro he
    obtain ⟨p, hp, rfl⟩ := List.mem_map.mp he
    exact metadataEntry_noNone p.1 p.2 kv hkv

end FtlSdk

namespace FtlSdk

/-- Unfolding the mapper on an optional type: `None` among the arguments and
exactly one non-`None` alternative `u` selects the recurse-and-nullify branch. -/
lemma schema_union_single (args : List PyType) (u : PyType)
    (h1 : args.any isNoneType = true)
    (h2 : args.filter (fun a => ! isNoneType a) = [u]) :
    python_type_to_json_schema (.tUnion args)
      = (match python_type_to_json_schema u with
         | .vDict d =>
             match AList.get d "type" with
             | some ty => .vDict (AList.insert d "type" (.vList [ty, .vStr "null"]))
             | none => .vDict d
         | v => v) := by
  rw [python_type_to_json_schema.eq_def]
  simp only [h1, if_true]
  split
  · rename_i u2 heq
    rw [h2] at heq
    cases heq
    rfl
  · rename_i hne
    exact absurd rfl (by rw [h2] at hne; exact hne u)

/-- Unfolding the mapper on a union whose non-`None` alternatives are not
exactly one: the `type_map` default applies. -/
lemma schema_union_other (args : List PyType)
    (h1 : args.any isNoneType = true)
    (h2 : ∀ u, args.filter (fun a => ! isNoneType a) ≠ [u]) :
    python_type_to_json_schema (.tUnion args) = typeMapDefault (.tUnion args) := by
  rw [python_type_to_json_schema.eq_def]
  simp only [h1, if_true]

/-- Unfolding the mapper on a union without `None`: the `type_map` default. -/
lemma schema_union_noNone (args : List PyType)
    (h1 : args.any isNoneType = false) :
    python_type_to_json_schema (.tUnion args) = typeMapDefault (.tUnion args) := by
  rw [python_type_to_json_schema.eq_def]
  simp [h1]

/-- Unfolding the mapper on `List[T]`. -/
lemma schema_tListOf (u : PyType) :
    python_type_to_json_schema (.tListOf u)
      = .vDict [("type", .vStr "array"), ("items", python_type_to_json_schema u)] := by
  rw [python_type_to_json_schema.eq_def]

/-- Every fragment the mapper produces is a dictionary that carries a `type`
key and no `oneOf` key. -/
lemma schema_shape (t : PyType) :
    ∃ d, python_type_to_json_schema t = .vDict d
      ∧ (∃ ty, AList.get d "type" = some ty)
      ∧ AList.get d "oneOf" = none := by
  generalize hs : sizeOf t = n
  induction n using Nat.strong_induction_on generalizing t with
  | _ n ih =>
    cases t with
    | tUnion args =>
        by_cases h1 : args.any isNoneType = true
        · by_cases h2 : ∃ u, args.filter (fun a => ! isNoneType a) = [u]
          · obtain ⟨u, hu⟩ := h2
            have hmem : u ∈ args :=
              List.mem_of_mem_filter (hu ▸ List.mem_singleton_self u)
            have hlt : sizeOf u < n := by
              rw [← hs]
              simp only [PyType.tUnion.sizeOf_spec]
              have := List.sizeOf_lt_of_mem hmem
              omega
            obtain ⟨d, hd, ⟨ty, hty⟩, honeof⟩ := ih (sizeOf u) hlt u rfl
            refine ⟨AList.insert d "type" (.vList [ty, .vStr "null"]), ?_,
                    ⟨_, get_insert_self d "type" _⟩, ?_⟩
            · rw [schema_union_single args u h1 hu, hd]
              simp only [hty]
            · rw [get_insert_of_ne d "type" "oneOf" _ (by decide)]
              exact honeof
          · rw [schema_union_other args h1 (fun u heq => h2 ⟨u, heq⟩)]
            exact ⟨_, rfl, ⟨_, rfl⟩, rfl⟩
        · rw [schema_union_noNone args (by simpa using h1)]
          exact ⟨_, rfl, ⟨_, rfl⟩, rfl⟩
    | tListOf u =>
        rw [schema_tListOf]
        exact ⟨_, rfl, ⟨_, rfl⟩, rfl⟩
    | tDictOf a b =>
        exact ⟨[("type", PyVal.vStr "object")],
          by rw [python_type_to_json_schema.eq_def]; try rfl, ⟨_, rfl⟩, rfl⟩
    | tStr => exact ⟨[("type", PyVal.vStr "string")],
        by rw [python_type_to_json_schema.eq_def]; try rfl, ⟨_, rfl⟩, rfl⟩
    | tInt => exact ⟨[("type", PyVal.vStr "integer")],
        by rw [python_type_to_json_schema.eq_def]; try rfl, ⟨_, rfl⟩, rfl⟩
    | tFloat => exact ⟨[("type", PyVal.vStr "number")],
        by rw [python_type_to_json_schema.eq_def]; try rfl, ⟨_, rfl⟩, rfl⟩
    | tBool => exact ⟨[("type", PyVal.vStr "boolean")],
        by rw [python_type_to_json_schema.eq_def]; try rfl, ⟨_, rfl⟩, rfl⟩
    | tList => exact ⟨[("type", PyVal.vStr "array")],
        by rw [python_type_to_json_schema.eq_def]; try rfl, ⟨_, rfl⟩, rfl⟩
    | tDict => exact ⟨[("type", PyVal.vStr "object")],
        by rw [python_type_to_json_schema.eq_def]; try rfl, ⟨_, rfl⟩, rfl⟩
    | tNone => exact ⟨[("type", PyVal.vStr "null")],
        by rw [python_type_to_json_schema.eq_def]; try rfl, ⟨_, rfl⟩, rfl⟩
    | tAny => exact ⟨[("type", PyVal.vStr "object")],
        by rw [python_type_to_json_schema.eq_def]; try rfl, ⟨_, rfl⟩, rfl⟩
    | tOther s => exact ⟨[("type", PyVal.vStr "object")],
        by rw [python_type_to_json_schema.eq_def]; try rfl, ⟨_, rfl⟩, rfl⟩

/-- C5: for `Union[T, None]` with exactly one non-null alternative, the mapper
recurses on `T` — whose fragment always carries a `type` field — and replaces
that field with the two-element list `[type, "null"]`; the mapper never
produces a `oneOf` fragment; and it is total, answering `{type: "object"}`
for `Any` and for every unrecognized type. -/
theorem C5_optional_mapping :
    (∀ (args : List PyType) (T : PyType),
        args.any isNoneType = true →
        args.filter (fun a => ! isNoneType a) = [T] →
        ∃ d ty, python_type_to_json_schema T = .vDict d
          ∧ AList.get d "type" = some ty
          ∧ python_type_to_json_schema (.tUnion args)
              = .vDict (AList.insert d "type" (.vList [ty, .vStr "null"])))
    ∧ (∀ t : PyType, AList.get (asDict (python_type_to_json_schema t)) "oneOf" = none)
    ∧ python_type_to_json_schema .tAny = .vDict [("type", .vStr "object")]
    ∧ (∀ s : String,
        python_type_to_json_schema (.tOther s) = .vDict [("type", .vStr "object")]) := by
  refine ⟨?_, ?_, ?_, ?_⟩
  · intro args T h1 h2
    obtain ⟨d, hd, ⟨ty, hty⟩, _⟩ := schema_shape T
    refine ⟨d, ty, hd, hty, ?_⟩
    rw [schema_union_single args T h1 h2, hd]
    simp only [hty]
  · intro t
    obtain ⟨d, hd, _, honeof⟩ := schema_shape t
    rw [hd]
    exact honeof
  · rw [python_type_to_json_schema.eq_def]
    rfl
  · intro s
    rw [python_type_to_json_schema.eq_def]
    rfl

/-- C5 witness: the optional-type conjunct applied to `Union[int, None]`. -/
theorem C5_witness :
    ∃ d ty, python_type_to_json_schema .tInt = .vDict d
      ∧ AList.get d "type" = some ty
      ∧ python_type_to_json_schema (.tUnion [.tInt, .tNone])
          = .vDict (AList.insert d "type" (.vList [ty, .vStr "null"])) :=
  C5_optional_mapping.1 [.tInt, .tNone] .tInt rfl rfl

end FtlSdk
